import Mathlib

/-!
Shallow embedding of the `dux` disk-analysis core (scanner, tree
finalization, pattern matching, insight generation), translated from the
Python sources under `src/dux/`, together with proofs settling the frozen
claims C1..C10.
-/

namespace Dux

/-! ## Data model (src/dux/models/enums.py, src/dux/models/scan.py) -/

/-- `NodeKind` from src/dux/models/enums.py. -/
inductive NodeKind where
  | file
  | directory
deriving DecidableEq, Repr

/-- `InsightCategory` from src/dux/models/enums.py (three members). -/
inductive InsightCategory where
  | temp
  | cache
  | build_artifact
deriving DecidableEq, Repr, Fintype

/-- `InsightCategory.value` — the str value of the enum member. -/
def InsightCategory.value : InsightCategory → String
  | .temp => "temp"
  | .cache => "cache"
  | .build_artifact => "build_artifact"

/-- `ApplyTo` from src/dux/models/enums.py: an IntFlag with FILE=1, DIR=2,
BOTH=FILE|DIR=3.  The three inhabited values are modelled as constructors. -/
inductive ApplyTo where
  | file
  | dir
  | both
deriving DecidableEq, Repr

/-- The IntFlag bit test `apply_to & ApplyTo.FILE` (nonzero ↔ true). -/
def ApplyTo.hasFile : ApplyTo → Bool
  | .file => true
  | .dir => false
  | .both => true

/-- The IntFlag bit test `apply_to & ApplyTo.DIR` (nonzero ↔ true). -/
def ApplyTo.hasDir : ApplyTo → Bool
  | .file => false
  | .dir => true
  | .both => true

/-- `PatternRule` from src/dux/config/schema.py. -/
structure PatternRule where
  name : String
  pattern : String
  category : InsightCategory
  apply_to : ApplyTo := .both
  stop_recursion : Bool := false
deriving DecidableEq, Repr

/-- `ScanNode` from src/dux/models/scan.py: one filesystem entry of the
in-memory tree.  `size_bytes`/`disk_usage` are nonnegative Python ints
(stat-reported sizes), modelled as `Nat`. -/
inductive ScanNode where
  | mk (path name : String) (kind : NodeKind) (size_bytes disk_usage : Nat)
      (children : List ScanNode)
deriving Repr

def ScanNode.path : ScanNode → String
  | .mk p _ _ _ _ _ => p

def ScanNode.name : ScanNode → String
  | .mk _ n _ _ _ _ => n

def ScanNode.kind : ScanNode → NodeKind
  | .mk _ _ k _ _ _ => k

def ScanNode.size_bytes : ScanNode → Nat
  | .mk _ _ _ s _ _ => s

def ScanNode.disk_usage : ScanNode → Nat
  | .mk _ _ _ _ d _ => d

def ScanNode.children : ScanNode → List ScanNode
  | .mk _ _ _ _ _ cs => cs

/-- `ScanNode.is_dir` property from src/dux/models/scan.py. -/
def ScanNode.is_dir (n : ScanNode) : Bool := n.kind == NodeKind.directory

/-- `ScanNode.directory` constructor from src/dux/models/scan.py:
directory nodes start with zero sizes and a fresh empty children list. -/
def ScanNode.directory (path name : String) : ScanNode :=
  .mk path name NodeKind.directory 0 0 []

/-- `ScanNode.file` constructor from src/dux/models/scan.py: file nodes
carry the stat-observed sizes and the shared empty children sentinel. -/
def ScanNode.file (path name : String) (size_bytes disk_usage : Nat) : ScanNode :=
  .mk path name NodeKind.file size_bytes disk_usage []

/-- Strong induction over `ScanNode` (children are structurally smaller). -/
theorem ScanNode.strong_induction (P : ScanNode → Prop)
    (h : ∀ p n k s d cs, (∀ c ∈ cs, P c) → P (.mk p n k s d cs)) :
    ∀ t, P t := by
  have key : ∀ bound : Nat, ∀ t : ScanNode, sizeOf t ≤ bound → P t := by
    intro bound
    induction bound with
    | zero =>
      intro t ht
      cases t with
      | mk p n k s d cs => simp at ht
    | succ m ih =>
      intro t ht
      cases t with
      | mk p n k s d cs =>
        apply h
        intro c hc
        apply ih
        have hlt := List.sizeOf_lt_of_mem hc
        simp at ht
        omega
  intro t
  exact key (sizeOf t) t le_rfl

/-! ## Tree primitives (src/dux/services/tree.py) -/

/-- One step of the stable descending insertion sort modelling Python's
`children.sort(key=lambda x: x.disk_usage, reverse=True)`: the element `a`
(earlier in the original list) is placed before the first element whose
`disk_usage` is ≤ `a`'s, which is exactly the stable descending order that
Python's stable sort produces. -/
def insertByUsage (a : ScanNode) : List ScanNode → List ScanNode
  | [] => [a]
  | b :: bs =>
    if a.disk_usage < b.disk_usage then b :: insertByUsage a bs else a :: b :: bs

/-- Stable sort by `disk_usage` descending (see `insertByUsage`). -/
def sortByUsageDesc : List ScanNode → List ScanNode
  | [] => []
  | a :: rest => insertByUsage a (sortByUsageDesc rest)

/-- `finalize_sizes` from src/dux/services/tree.py.

The Python is an iterative two-phase pass: a pre-order walk collects every
directory node reachable through directory children (children of FILE nodes
are never visited), then the collected stack is drained in reverse so each
directory is processed after all deeper directories.  On a tree (each node
has one parent) that bottom-up processing order is exactly structural
recursion: a directory's `size_bytes`/`disk_usage` become the sums over its
(already finalized) children and its children list is stably sorted by
`disk_usage` descending; FILE nodes are left untouched. -/
def finalize_sizes : ScanNode → ScanNode
  | .mk p n k s d cs =>
    match k with
    | .file => .mk p n .file s d cs
    | .directory =>
      let finalized := cs.attach.map fun c => finalize_sizes c.1
      .mk p n .directory
        (finalized.map ScanNode.size_bytes).sum
        (finalized.map ScanNode.disk_usage).sum
        (sortByUsageDesc finalized)
termination_by t => sizeOf t
decreasing_by
  have hlt := List.sizeOf_lt_of_mem c.2
  simp
  omega

/-- `iter_nodes` from src/dux/services/tree.py, as the list of all nodes of
the tree (the node itself followed by all nodes of its children). -/
def allNodes : ScanNode → List ScanNode
  | .mk p n k s d cs =>
    .mk p n k s d cs :: (cs.attach.map fun c => allNodes c.1).flatten
termination_by t => sizeOf t
decreasing_by
  have hlt := List.sizeOf_lt_of_mem c.2
  simp
  omega

/-- Unfolding: `finalize_sizes` on a FILE node. -/
theorem finalize_sizes_file (p n : String) (s d : Nat) (cs : List ScanNode) :
    finalize_sizes (.mk p n .file s d cs) = .mk p n .file s d cs := by
  rw [finalize_sizes]

/-- Unfolding: `finalize_sizes` on a DIRECTORY node (attach eliminated). -/
theorem finalize_sizes_dir (p n : String) (s d : Nat) (cs : List ScanNode) :
    finalize_sizes (.mk p n .directory s d cs) =
      .mk p n .directory
        ((cs.map finalize_sizes).map ScanNode.size_bytes).sum
        ((cs.map finalize_sizes).map ScanNode.disk_usage).sum
        (sortByUsageDesc (cs.map finalize_sizes)) := by
  rw [finalize_sizes]
  simp [List.attach_map_val]

/-- Unfolding: `allNodes` (attach eliminated). -/
theorem allNodes_mk (p n : String) (k : NodeKind) (s d : Nat) (cs : List ScanNode) :
    allNodes (.mk p n k s d cs) = .mk p n k s d cs :: (cs.map allNodes).flatten := by
  rw [allNodes]
  simp [List.attach_map_val]

/-- Descending-by-`disk_usage` comparison used by the sortedness results. -/
def usageGE (a b : ScanNode) : Prop := b.disk_usage ≤ a.disk_usage

theorem perm_insertByUsage (a : ScanNode) (l : List ScanNode) :
    (insertByUsage a l).Perm (a :: l) := by
  induction l with
  | nil => simp [insertByUsage]
  | cons b bs ih =>
    rw [insertByUsage]
    by_cases h : a.disk_usage < b.disk_usage
    · simp only [if_pos h]
      exact (ih.cons b).trans (List.Perm.swap a b bs)
    · simp [if_neg h]

theorem perm_sortByUsageDesc (l : List ScanNode) :
    (sortByUsageDesc l).Perm l := by
  induction l with
  | nil => simp [sortByUsageDesc]
  | cons a rest ih =>
    rw [sortByUsageDesc]
    exact (perm_insertByUsage a (sortByUsageDesc rest)).trans (ih.cons a)

theorem mem_sortByUsageDesc {x : ScanNode} {l : List ScanNode} :
    x ∈ sortByUsageDesc l ↔ x ∈ l :=
  (perm_sortByUsageDesc l).mem_iff

theorem pairwise_insertByUsage (a : ScanNode) (l : List ScanNode)
    (hl : l.Pairwise usageGE) : (insertByUsage a l).Pairwise usageGE := by
  induction l with
  | nil => simp [insertByUsage]
  | cons b bs ih =>
    rw [List.pairwise_cons] at hl
    rw [insertByUsage]
    by_cases h : a.disk_usage < b.disk_usage
    · simp only [if_pos h]
      rw [List.pairwise_cons]
      refine ⟨?_, ih hl.2⟩
      intro x hx
      have hx' : x ∈ a :: bs := (perm_insertByUsage a bs).mem_iff.mp hx
      rcases List.mem_cons.mp hx' with hxa | hxb
      · subst hxa
        exact Nat.le_of_lt h
      · exact hl.1 x hxb
    · simp only [if_neg h]
      rw [List.pairwise_cons]
      refine ⟨?_, List.pairwise_cons.mpr hl⟩
      intro x hx
      rcases List.mem_cons.mp hx with hxb | hxbs
      · subst hxb
        exact Nat.le_of_not_lt h
      · exact Nat.le_trans (hl.1 x hxbs) (Nat.le_of_not_lt h)

theorem pairwise_sortByUsageDesc (l : List ScanNode) :
    (sortByUsageDesc l).Pairwise usageGE := by
  induction l with
  | nil => simp [sortByUsageDesc]
  | cons a rest ih =>
    rw [sortByUsageDesc]
    exact pairwise_insertByUsage a (sortByUsageDesc rest) ih

/-- Inserting an element that dominates a list leaves it in front. -/
theorem insertByUsage_of_ge (a : ScanNode) (l : List ScanNode)
    (h : ∀ b ∈ l, b.disk_usage ≤ a.disk_usage) : insertByUsage a l = a :: l := by
  cases l with
  | nil => rfl
  | cons b bs =>
    rw [insertByUsage]
    have : ¬ a.disk_usage < b.disk_usage := Nat.not_lt.mpr (h b (List.mem_cons_self b bs))
    simp [this]

/-- A list already sorted descending is a fixed point of the sort
(this is where stability of Python's sort matters). -/
theorem sortByUsageDesc_of_pairwise (l : List ScanNode)
    (hl : l.Pairwise usageGE) : sortByUsageDesc l = l := by
  induction l with
  | nil => rfl
  | cons a rest ih =>
    rw [List.pairwise_cons] at hl
    rw [sortByUsageDesc, ih hl.2]
    exact insertByUsage_of_ge a rest hl.1

theorem sum_map_sortByUsageDesc (f : ScanNode → Nat) (l : List ScanNode) :
    ((sortByUsageDesc l).map f).sum = (l.map f).sum :=
  ((perm_sortByUsageDesc l).map f).sum_eq

/-- Scan trees as produced by the scanner: FILE nodes have no children
(spec §3: for FILE nodes, `children` is always empty). -/
def filesChildless : ScanNode → Bool
  | .mk _ _ k _ _ cs =>
    (k != NodeKind.file || cs.isEmpty) &&
      (cs.attach.map fun c => filesChildless c.1).all id
termination_by t => sizeOf t
decreasing_by
  have hlt := List.sizeOf_lt_of_mem c.2
  simp
  omega

theorem all_map_id {α : Type} (l : List α) (f : α → Bool) :
    (l.map f).all id = l.all f := by
  induction l with
  | nil => rfl
  | cons a rest ih => simp [ih]

theorem filesChildless_mk (p n : String) (k : NodeKind) (s d : Nat)
    (cs : List ScanNode) :
    filesChildless (.mk p n k s d cs) =
      ((k != NodeKind.file || cs.isEmpty) && cs.all filesChildless) := by
  rw [filesChildless]
  rw [List.attach_map_val, all_map_id]

/-- Core invariant behind C3: after `finalize_sizes`, every directory node of
the result carries the sums of its children and a descending children list,
and every FILE node of the result is (unchanged) a node of the input tree. -/
theorem finalize_sizes_invariant (t : ScanNode) :
    filesChildless t = true →
      ∀ m ∈ allNodes (finalize_sizes t),
        (m.kind = NodeKind.directory →
          m.size_bytes = (m.children.map ScanNode.size_bytes).sum ∧
          m.disk_usage = (m.children.map ScanNode.disk_usage).sum ∧
          m.children.Pairwise usageGE) ∧
        (m.kind = NodeKind.file → m ∈ allNodes t) := by
  induction t using ScanNode.strong_induction with
  | h p n k s d cs ih =>
    intro hwf m hm
    rw [filesChildless_mk] at hwf
    have hwf' := (Bool.and_eq_true _ _).mp hwf
    have hchildren : ∀ c ∈ cs, filesChildless c = true := by
      intro c hc
      exact (List.all_eq_true.mp hwf'.2) c hc
    cases k with
    | file =>
      -- FILE root: finalize is the identity and, in a scan tree, there are
      -- no children at all.
      rw [finalize_sizes_file] at hm
      have hempty : cs = [] := by
        have h1 := hwf'.1
        simpa using h1
      subst hempty
      rw [allNodes_mk] at hm
      simp at hm
      subst hm
      constructor
      · intro hk
        simp [ScanNode.kind] at hk
      · intro _
        rw [allNodes_mk]
        simp
    | directory =>
      rw [finalize_sizes_dir, allNodes_mk] at hm
      rcases List.mem_cons.mp hm with hroot | hdeep
      · -- the finalized root itself
        subst hroot
        constructor
        · intro _
          refine ⟨?_, ?_, ?_⟩
          · simp [ScanNode.size_bytes, ScanNode.children,
              sum_map_sortByUsageDesc]
          · simp [ScanNode.disk_usage, ScanNode.children,
              sum_map_sortByUsageDesc]
          · simpa [ScanNode.children] using
              pairwise_sortByUsageDesc (cs.map finalize_sizes)
        · intro hk
          simp [ScanNode.kind] at hk
      · -- a node inside some finalized child
        rw [List.mem_flatten] at hdeep
        obtain ⟨l, hl, hml⟩ := hdeep
        rw [List.mem_map] at hl
        obtain ⟨c', hc', hlc⟩ := hl
        have hc'mem : c' ∈ cs.map finalize_sizes :=
          mem_sortByUsageDesc.mp hc'
        rw [List.mem_map] at hc'mem
        obtain ⟨c, hc, hcc⟩ := hc'mem
        subst hcc
        subst hlc
        have hrec := ih c hc (hchildren c hc) m hml
        refine ⟨hrec.1, ?_⟩
        intro hk
        have hmorig := hrec.2 hk
        rw [allNodes_mk]
        exact List.mem_cons.mpr (Or.inr (List.mem_flatten.mpr
          ⟨allNodes c, List.mem_map.mpr ⟨c, hc, rfl⟩, hmorig⟩))

/-- Sample scan tree used to instantiate hypotheses of the proved claims. -/
def demoTree : ScanNode :=
  ScanNode.mk "/r" "r" NodeKind.directory 0 0
    [ScanNode.file "/r/a" "a" 10 20, ScanNode.file "/r/b" "b" 7 4]

theorem demoTree_childless : filesChildless demoTree = true := by
  simp [demoTree, ScanNode.file, filesChildless_mk]

/-- C3: After `finalize_sizes(root)` on any finite scan tree, every DIRECTORY
node D satisfies `D.size_bytes = Σ child.size_bytes` and
`D.disk_usage = Σ child.disk_usage`, D.children is sorted by `disk_usage`
descending, and FILE nodes' `size_bytes` and `disk_usage` are unchanged
(every FILE node of the finalized tree is a node of the input tree). -/
theorem C3_finalize_sizes_invariants (t : ScanNode)
    (ht : filesChildless t = true) :
    (∀ m ∈ allNodes (finalize_sizes t), m.kind = NodeKind.directory →
        m.size_bytes = (m.children.map ScanNode.size_bytes).sum ∧
        m.disk_usage = (m.children.map ScanNode.disk_usage).sum ∧
        m.children.Pairwise usageGE) ∧
    (∀ m ∈ allNodes (finalize_sizes t), m.kind = NodeKind.file →
        m ∈ allNodes t) := by
  constructor
  · intro m hm hk
    exact (finalize_sizes_invariant t ht m hm).1 hk
  · intro m hm hk
    exact (finalize_sizes_invariant t ht m hm).2 hk

/-- Witness for C3 at the concrete tree `demoTree`. -/
theorem C3_finalize_sizes_invariants_witness :
    filesChildless demoTree = true ∧
    ((∀ m ∈ allNodes (finalize_sizes demoTree), m.kind = NodeKind.directory →
        m.size_bytes = (m.children.map ScanNode.size_bytes).sum ∧
        m.disk_usage = (m.children.map ScanNode.disk_usage).sum ∧
        m.children.Pairwise usageGE) ∧
     (∀ m ∈ allNodes (finalize_sizes demoTree), m.kind = NodeKind.file →
        m ∈ allNodes demoTree)) :=
  ⟨demoTree_childless, C3_finalize_sizes_invariants demoTree demoTree_childless⟩

/-- C9: `finalize_sizes` is idempotent: recomputing the sums from unchanged
children reproduces them, and (by stability of the sort) re-sorting an
already descending children list leaves it unchanged. -/
theorem C9_finalize_sizes_idempotent (t : ScanNode) :
    finalize_sizes (finalize_sizes t) = finalize_sizes t := by
  induction t using ScanNode.strong_induction with
  | h p n k s d cs ih =>
    cases k with
    | file => rw [finalize_sizes_file, finalize_sizes_file]
    | directory =>
      rw [finalize_sizes_dir, finalize_sizes_dir]
      have hmap : (sortByUsageDesc (cs.map finalize_sizes)).map finalize_sizes
          = sortByUsageDesc (cs.map finalize_sizes) := by
        have hfix : ∀ x ∈ sortByUsageDesc (cs.map finalize_sizes),
            finalize_sizes x = x := by
          intro x hx
          obtain ⟨c, hc, hcx⟩ := List.mem_map.mp (mem_sortByUsageDesc.mp hx)
          subst hcx
          exact ih c hc
        rw [List.map_congr_left hfix]
        exact List.map_id _
      rw [hmap, sum_map_sortByUsageDesc, sum_map_sortByUsageDesc,
        sortByUsageDesc_of_pairwise _ (pairwise_sortByUsageDesc _)]

/-! ## Config schema (src/dux/models/enums.py, src/dux/config/schema.py) -/

/-- `ApplyTo.from_str` from src/dux/models/enums.py:
`_APPLY_TO_FROM_STR.get(str(value), cls.BOTH)` — a lookup in the mapping
`{"file": FILE, "dir": DIR, "both": BOTH}` with default `BOTH`. -/
def ApplyTo.from_str (value : String) : ApplyTo :=
  if value = "file" then .file
  else if value = "dir" then .dir
  else if value = "both" then .both
  else .both

/-- Python exceptions surfaced by the embedded code. -/
inductive PyError where
  | typeError
  | keyError
  | valueError
deriving DecidableEq, Repr

/-- `InsightCategory(str)` — the enum constructor lookup, `ValueError`
(`none`) on an unrecognized value. -/
def InsightCategory.fromValue : String → Option InsightCategory
  | "temp" => some .temp
  | "cache" => some .cache
  | "build_artifact" => some .build_artifact
  | _ => none

/-- The JSON payload consumed by `PatternRule.from_dict`: the fields the
method reads, `none` when the key is absent.  `str(...)` coercions are
modelled by the fields already being strings. -/
structure RulePayload where
  name : Option String := none
  pattern : Option String := none
  category : Option String := none
  applyTo : Option String := none
  stopRecursion : Option Bool := none
deriving DecidableEq, Repr

/-- `PatternRule.from_dict` from src/dux/config/schema.py.  `payload["name"]`
and `payload["pattern"]` raise `KeyError` when absent; `InsightCategory(...)`
raises `ValueError` on an unknown category; `applyTo` is read with
`payload.get("applyTo", "both")` and fed to `ApplyTo.from_str`, and
`stopRecursion` with `payload.get("stopRecursion", False)` — neither can
fail. -/
def PatternRule.from_dict (payload : RulePayload) : Except PyError PatternRule :=
  match payload.name with
  | none => .error .keyError
  | some nm =>
    match payload.pattern with
    | none => .error .keyError
    | some pat =>
      match payload.category with
      | none => .error .keyError
      | some c =>
        match InsightCategory.fromValue c with
        | none => .error .valueError
        | some cat =>
          .ok { name := nm, pattern := pat, category := cat,
                apply_to := ApplyTo.from_str (payload.applyTo.getD "both"),
                stop_recursion := payload.stopRecursion.getD false }

/-- C10: `ApplyTo.from_str` returns BOTH for every input string outside
{"file", "dir", "both"}; consequently `PatternRule.from_dict` never fails
because of an unrecognized `applyTo` value: whenever it succeeds on some
payload it succeeds on the same payload with *any* `applyTo` string, and an
unrecognized string yields a rule applying to both files and directories. -/
theorem C10_applyto_fallback :
    (∀ s : String, s ≠ "file" → s ≠ "dir" → s ≠ "both" →
        ApplyTo.from_str s = ApplyTo.both) ∧
    (∀ (payload : RulePayload) (a : String) (r : PatternRule),
        PatternRule.from_dict payload = .ok r →
        ∃ r' : PatternRule,
          PatternRule.from_dict { payload with applyTo := some a } = .ok r' ∧
          (a ≠ "file" → a ≠ "dir" → a ≠ "both" →
            r'.apply_to = ApplyTo.both ∧ r'.apply_to.hasFile = true ∧
              r'.apply_to.hasDir = true)) := by
  constructor
  · intro s h1 h2 h3
    simp [ApplyTo.from_str, h1, h2, h3]
  · intro payload a r hok
    cases hn : payload.name with
    | none => simp [PatternRule.from_dict, hn] at hok
    | some nm =>
    cases hp : payload.pattern with
    | none => simp [PatternRule.from_dict, hn, hp] at hok
    | some pat =>
    cases hc : payload.category with
    | none => simp [PatternRule.from_dict, hn, hp, hc] at hok
    | some c =>
    cases hcat : InsightCategory.fromValue c with
    | none => simp [PatternRule.from_dict, hn, hp, hc, hcat] at hok
    | some cat =>
      refine ⟨⟨nm, pat, cat, ApplyTo.from_str a,
          payload.stopRecursion.getD false⟩, ?_, ?_⟩
      · simp [PatternRule.from_dict, hn, hp, hc, hcat]
      · intro h1 h2 h3
        have hboth : ApplyTo.from_str a = ApplyTo.both := by
          simp [ApplyTo.from_str, h1, h2, h3]
        simp [hboth, ApplyTo.hasFile, ApplyTo.hasDir]

/-- Witness for C10: a concrete payload with `applyTo = "sometimes"`. -/
theorem C10_applyto_fallback_witness :
    ApplyTo.from_str "sometimes" = ApplyTo.both ∧
    (∃ r' : PatternRule,
      PatternRule.from_dict
        { name := some "n", pattern := some "**/x", category := some "temp",
          applyTo := some "sometimes", stopRecursion := none } = .ok r' ∧
      (("sometimes" : String) ≠ "file" → ("sometimes" : String) ≠ "dir" →
        ("sometimes" : String) ≠ "both" →
        r'.apply_to = ApplyTo.both ∧ r'.apply_to.hasFile = true ∧
          r'.apply_to.hasDir = true)) := by
  constructor
  · exact C10_applyto_fallback.1 "sometimes" (by decide) (by decide) (by decide)
  · exact C10_applyto_fallback.2
      { name := some "n", pattern := some "**/x", category := some "temp",
        applyTo := none, stopRecursion := none } "sometimes"
      { name := "n", pattern := "**/x", category := .temp,
        apply_to := .both, stop_recursion := false } rfl

/-! ## Brace expansion (src/dux/services/patterns.py, `_expand_braces`)

Python strings are modelled as `List Char`; `String`-level wrappers convert
at the boundary. -/

/-- Index of the first occurrence of `ch` in `l` (`none` when absent),
the building block of Python's `str.find`. -/
def findIdxFrom (ch : Char) : List Char → Option Nat
  | [] => none
  | c :: rest => if c = ch then some 0 else (findIdxFrom ch rest).map (· + 1)

/-- Python `s.find(ch, start)`: first index ≥ `start` holding `ch`
(`none` for `-1`). -/
def strFind (l : List Char) (ch : Char) (start : Nat) : Option Nat :=
  (findIdxFrom ch (l.drop start)).map (· + start)

theorem findIdxFrom_eq_none {ch : Char} {l : List Char} (h : ch ∉ l) :
    findIdxFrom ch l = none := by
  induction l with
  | nil => rfl
  | cons c rest ih =>
    rw [findIdxFrom]
    have hc : ¬ c = ch := fun hcc => h (hcc ▸ List.mem_cons_self c rest)
    rw [if_neg hc, ih (fun hm => h (List.mem_cons_of_mem c hm))]
    rfl

theorem findIdxFrom_drop {ch : Char} {l : List Char} {k : Nat}
    (h : findIdxFrom ch l = some k) : l.drop k = ch :: l.drop (k + 1) := by
  induction l generalizing k with
  | nil => simp [findIdxFrom] at h
  | cons c rest ih =>
    rw [findIdxFrom] at h
    by_cases hc : c = ch
    · rw [if_pos hc] at h
      cases h
      simpa using hc
    · rw [if_neg hc] at h
      cases hk : findIdxFrom ch rest with
      | none => rw [hk] at h; simp at h
      | some k' =>
        rw [hk] at h
        simp at h
        subst h
        simpa using ih hk

theorem findIdxFrom_not_mem_take {ch : Char} {l : List Char} {k : Nat}
    (h : findIdxFrom ch l = some k) : ch ∉ l.take k := by
  induction l generalizing k with
  | nil => simp
  | cons c rest ih =>
    rw [findIdxFrom] at h
    by_cases hc : c = ch
    · rw [if_pos hc] at h
      cases h
      simp
    · rw [if_neg hc] at h
      cases hk : findIdxFrom ch rest with
      | none => rw [hk] at h; simp at h
      | some k' =>
        rw [hk] at h
        simp at h
        subst h
        rw [List.take_succ_cons]
        intro hmem
        rcases List.mem_cons.mp hmem with h1 | h2
        · exact hc h1.symm
        · exact ih hk h2

/-- Python `",".split` on the brace body (pieces may be empty). -/
def splitComma : List Char → List (List Char)
  | [] => [[]]
  | c :: rest =>
    if c = ',' then [] :: splitComma rest
    else
      match splitComma rest with
      | [] => [[c]]
      | piece :: more => (c :: piece) :: more

theorem splitComma_not_mem {ch : Char} :
    ∀ {m : List Char}, ch ∉ m → ∀ piece ∈ splitComma m, ch ∉ piece := by
  intro m
  induction m with
  | nil =>
    intro _ piece hp
    simp [splitComma] at hp
    simp [hp]
  | cons c rest ih =>
    intro hm piece hp
    have hc : ch ≠ c := fun h => hm (h ▸ List.mem_cons_self c rest)
    have hrest : ch ∉ rest := fun h => hm (List.mem_cons_of_mem c h)
    rw [splitComma] at hp
    by_cases hcm : c = ','
    · rw [if_pos hcm] at hp
      rcases List.mem_cons.mp hp with h1 | h2
      · simp [h1]
      · exact ih hrest piece h2
    · rw [if_neg hcm] at hp
      cases hs : splitComma rest with
      | nil =>
        rw [hs] at hp
        simp at hp
        subst hp
        simp [hc]
      | cons piece0 more =>
        rw [hs] at hp
        rcases List.mem_cons.mp hp with h1 | h2
        · subst h1
          intro hmem
          rcases List.mem_cons.mp hmem with hx | hx
          · exact hc hx
          · exact ih hrest piece0 (hs ▸ List.mem_cons_self piece0 more) hx
        · exact ih hrest piece (hs ▸ List.mem_cons_of_mem piece0 h2)

/-- Each candidate substitution of `_expand_braces` removes the matched
closing brace: the sole decrease witness of the recursion. -/
theorem expand_count_lt {p pre choice suf : List Char} {start stop : Nat}
    (hfind : strFind p '}' (start + 1) = some stop)
    (hpre : pre = p.take start)
    (hch : '}' ∉ choice)
    (hsuf : suf = p.drop (stop + 1)) :
    (pre ++ choice ++ suf).count '}' < p.count '}' := by
  obtain ⟨k, hk, hstop⟩ : ∃ k, findIdxFrom '}' (p.drop (start + 1)) = some k ∧
      stop = k + (start + 1) := by
    unfold strFind at hfind
    cases hfk : findIdxFrom '}' (p.drop (start + 1)) with
    | none => rw [hfk] at hfind; simp at hfind
    | some k =>
      rw [hfk] at hfind
      simp at hfind
      exact ⟨k, rfl, hfind.symm⟩
  have hdropstop : p.drop stop = '}' :: p.drop (stop + 1) := by
    have h1 := findIdxFrom_drop hk
    rw [List.drop_drop, List.drop_drop] at h1
    have e1 : start + 1 + k = stop := by omega
    have e2 : start + 1 + (k + 1) = stop + 1 := by omega
    rw [e1, e2] at h1
    exact h1
  have hsplit : p.count '}' = (p.take stop).count '}' + 1 + suf.count '}' := by
    conv_lhs => rw [← List.take_append_drop stop p]
    rw [List.count_append, hdropstop, List.count_cons, hsuf]
    simp
    omega
  have hprele : pre.count '}' ≤ (p.take stop).count '}' := by
    have hss : start ≤ stop := by omega
    have : p.take start = (p.take stop).take start := by
      rw [List.take_take]
      rw [Nat.min_eq_left hss]
    rw [hpre, this]
    exact List.Sublist.count_le (List.take_sublist _ _) _
  have hchz : choice.count '}' = 0 := List.count_eq_zero.mpr hch
  rw [List.count_append, List.count_append, hchz]
  omega

/-- `_expand_braces` from src/dux/services/patterns.py, on `List Char`:
find the first `{` and the first `}` after it; if either is missing, the
pattern passes through unchanged; otherwise split the body on commas and
recursively expand `prefix ++ choice ++ suffix` for each choice. -/
def expandBracesL (p : List Char) : List (List Char) :=
  match hs : strFind p '{' 0 with
  | none => [p]
  | some start =>
    match hstp : strFind p '}' (start + 1) with
    | none => [p]
    | some stop =>
      let choices := splitComma ((p.drop (start + 1)).take (stop - (start + 1)))
      let pre := p.take start
      let suf := p.drop (stop + 1)
      (choices.attach.map fun ch => expandBracesL (pre ++ ch.1 ++ suf)).flatten
termination_by p.count '}'
decreasing_by
  refine expand_count_lt hstp rfl ?_ rfl
  have hmid : '}' ∉ (p.drop (start + 1)).take (stop - (start + 1)) := by
    obtain ⟨k, hk, hstop⟩ : ∃ k, findIdxFrom '}' (p.drop (start + 1)) = some k ∧
        stop = k + (start + 1) := by
      unfold strFind at hstp
      cases hfk : findIdxFrom '}' (p.drop (start + 1)) with
      | none => rw [hfk] at hstp; simp at hstp
      | some k =>
        rw [hfk] at hstp
        simp at hstp
        exact ⟨k, rfl, hstp.symm⟩
    have : stop - (start + 1) = k := by omega
    rw [this]
    exact findIdxFrom_not_mem_take hk
  exact splitComma_not_mem hmid ch.1 ch.2

/-- `_expand_braces` at the `str` level: the tuple of expanded patterns. -/
def expand_braces (pattern : String) : List String :=
  (expandBracesL pattern.toList).map List.asString

theorem expandBracesL_no_open {p : List Char} (h : strFind p '{' 0 = none) :
    expandBracesL p = [p] := by
  rw [expandBracesL.eq_def]
  split
  · rfl
  · next start hstart =>
    rw [h] at hstart
    cases hstart

theorem expandBracesL_no_close {p : List Char} {start : Nat}
    (h1 : strFind p '{' 0 = some start)
    (h2 : strFind p '}' (start + 1) = none) :
    expandBracesL p = [p] := by
  rw [expandBracesL.eq_def]
  split
  · rfl
  · next start' hstart =>
    rw [h1] at hstart
    cases hstart
    split
    · rfl
    · next stop hstop =>
      rw [h2] at hstop
      cases hstop

theorem expandBracesL_found {p : List Char} {start stop : Nat}
    (h1 : strFind p '{' 0 = some start)
    (h2 : strFind p '}' (start + 1) = some stop) :
    expandBracesL p =
      ((splitComma ((p.drop (start + 1)).take (stop - (start + 1)))).map
        (fun ch => expandBracesL (p.take start ++ ch ++ p.drop (stop + 1)))).flatten := by
  rw [expandBracesL.eq_def]
  split
  · next hstart =>
    rw [h1] at hstart
    cases hstart
  · next start' hstart =>
    rw [h1] at hstart
    cases hstart
    split
    · next hstop =>
      rw [h2] at hstop
      cases hstop
    · next stop' hstop =>
      rw [h2] at hstop
      cases hstop
      exact congrArg List.flatten
        (List.attach_map_val
          (splitComma ((p.drop (start + 1)).take (stop - (start + 1))))
          (fun ch => expandBracesL (p.take start ++ ch ++ p.drop (stop + 1))))

/-- A `str` round-trip used when lifting `List Char` results to `String`. -/
theorem asString_toList (s : String) : s.toList.asString = s := rfl

theorem expand_braces_no_open {p : String} (h : '{' ∉ p.toList) :
    expand_braces p = [p] := by
  rw [expand_braces, expandBracesL_no_open]
  · rfl
  · rw [strFind]
    rw [List.drop_zero, findIdxFrom_eq_none h]
    rfl

theorem expand_braces_no_close {p : String} (h : '}' ∉ p.toList) :
    expand_braces p = [p] := by
  rw [expand_braces]
  cases hstart : strFind p.toList '{' 0 with
  | none =>
    rw [expandBracesL_no_open hstart]
    rfl
  | some start =>
    rw [expandBracesL_no_close hstart ?_]
    · rfl
    · rw [strFind]
      have hnot : '}' ∉ p.toList.drop (start + 1) :=
        fun hm => h (List.drop_subset _ _ hm)
      rw [findIdxFrom_eq_none hnot]
      rfl

/-- Concrete evaluation: `_expand_braces("pat{a,b,c}suf")`.  The choices are
spliced verbatim between the text before `{` and after `}`. -/
theorem expand_braces_example :
    expand_braces "pat{a,b,c}suf" = ["patasuf", "patbsuf", "patcsuf"] := by
  rw [expand_braces,
    @expandBracesL_found "pat{a,b,c}suf".toList 3 9 (by decide) (by decide)]
  have hsc : splitComma (("pat{a,b,c}suf".toList.drop (3 + 1)).take (9 - (3 + 1)))
      = [['a'], ['b'], ['c']] := by decide
  rw [hsc]
  simp only [List.map_cons, List.map_nil]
  have ea : "pat{a,b,c}suf".toList.take 3 ++ ['a'] ++ "pat{a,b,c}suf".toList.drop (9 + 1)
      = "patasuf".toList := by decide
  have eb : "pat{a,b,c}suf".toList.take 3 ++ ['b'] ++ "pat{a,b,c}suf".toList.drop (9 + 1)
      = "patbsuf".toList := by decide
  have ec : "pat{a,b,c}suf".toList.take 3 ++ ['c'] ++ "pat{a,b,c}suf".toList.drop (9 + 1)
      = "patcsuf".toList := by decide
  rw [ea, eb, ec]
  rw [@expandBracesL_no_open "patasuf".toList (by decide),
    @expandBracesL_no_open "patbsuf".toList (by decide),
    @expandBracesL_no_open "patcsuf".toList (by decide)]
  decide

/-- Concrete evaluation: two successive brace groups expand recursively. -/
theorem expand_braces_multi :
    expand_braces "a{b,c}{d,e}" = ["abd", "abe", "acd", "ace"] := by
  rw [expand_braces,
    @expandBracesL_found "a{b,c}{d,e}".toList 1 5 (by decide) (by decide)]
  have hsc : splitComma (("a{b,c}{d,e}".toList.drop (1 + 1)).take (5 - (1 + 1)))
      = [['b'], ['c']] := by decide
  rw [hsc]
  simp only [List.map_cons, List.map_nil]
  have eb : "a{b,c}{d,e}".toList.take 1 ++ ['b'] ++ "a{b,c}{d,e}".toList.drop (5 + 1)
      = "ab{d,e}".toList := by decide
  have ec : "a{b,c}{d,e}".toList.take 1 ++ ['c'] ++ "a{b,c}{d,e}".toList.drop (5 + 1)
      = "ac{d,e}".toList := by decide
  rw [eb, ec]
  rw [@expandBracesL_found "ab{d,e}".toList 2 6 (by decide) (by decide),
    @expandBracesL_found "ac{d,e}".toList 2 6 (by decide) (by decide)]
  have h2b : splitComma (("ab{d,e}".toList.drop (2 + 1)).take (6 - (2 + 1)))
      = [['d'], ['e']] := by decide
  have h2c : splitComma (("ac{d,e}".toList.drop (2 + 1)).take (6 - (2 + 1)))
      = [['d'], ['e']] := by decide
  rw [h2b, h2c]
  simp only [List.map_cons, List.map_nil]
  have e1 : "ab{d,e}".toList.take 2 ++ ['d'] ++ "ab{d,e}".toList.drop (6 + 1)
      = "abd".toList := by decide
  have e2 : "ab{d,e}".toList.take 2 ++ ['e'] ++ "ab{d,e}".toList.drop (6 + 1)
      = "abe".toList := by decide
  have e3 : "ac{d,e}".toList.take 2 ++ ['d'] ++ "ac{d,e}".toList.drop (6 + 1)
      = "acd".toList := by decide
  have e4 : "ac{d,e}".toList.take 2 ++ ['e'] ++ "ac{d,e}".toList.drop (6 + 1)
      = "ace".toList := by decide
  rw [e1, e2, e3, e4]
  rw [@expandBracesL_no_open "abd".toList (by decide),
    @expandBracesL_no_open "abe".toList (by decide),
    @expandBracesL_no_open "acd".toList (by decide),
    @expandBracesL_no_open "ace".toList (by decide)]
  decide

/-- The first occurrence of `ch` after a `ch`-free block sits at the
block's length. -/
theorem findIdxFrom_append_first (ch : Char) (l r : List Char)
    (hl : ch ∉ l) : findIdxFrom ch (l ++ ch :: r) = some l.length := by
  induction l with
  | nil => simp [findIdxFrom]
  | cons c cs ih =>
    have hc : ¬ c = ch := by
      intro h
      exact hl (h ▸ List.mem_cons_self c cs)
    rw [List.cons_append, findIdxFrom, if_neg hc,
      ih (fun hm => hl (List.mem_cons_of_mem c hm))]
    rfl

/-- Unmatched braces in full generality: when no `\x7d` occurs after the
first `\x7b` — whatever stands before it, e.g. `a\x7db\x7bc` — the pattern
passes through unchanged (`end == -1` in `_expand_braces`). -/
theorem expand_braces_unmatched_open (p : String) (l r : List Char)
    (hdec : p.toList = l ++ '{' :: r) (hl : '{' ∉ l) (hr : '}' ∉ r) :
    expand_braces p = [p] := by
  have hfind1 : strFind p.toList '{' 0 = some l.length := by
    rw [strFind, List.drop_zero, hdec, findIdxFrom_append_first '{' l r hl]
    simp
  have hdrop : p.toList.drop (l.length + 1) = r := by
    rw [hdec, show l ++ '{' :: r = (l ++ ['{']) ++ r by simp,
      show l.length + 1 = (l ++ ['{']).length by simp]
    exact List.drop_left _ _
  have hfind2 : strFind p.toList '}' (l.length + 1) = none := by
    rw [strFind, hdrop, findIdxFrom_eq_none hr]
    rfl
  rw [expand_braces, expandBracesL_no_close hfind1 hfind2]
  rfl

/-- Concrete evaluation of a NESTED brace group: `_expand_braces` pairs the
first `\x7b` with the FIRST `\x7d` after it, which closes the outer group
inside the inner one: `\x7ba,b\x7bc,d\x7d\x7d` has body `a,b\x7bc,d`,
split on commas into `a`, `b\x7bc`, `d`, producing `a\x7d`, `bc`, `d\x7d`
— fragments with unmatched braces, not a recursive expansion of the nested
group. -/
theorem expand_braces_nested :
    expand_braces "{a,b{c,d}}" = ["a\x7d", "bc", "d\x7d"] := by
  rw [expand_braces,
    @expandBracesL_found "{a,b{c,d}}".toList 0 8 (by decide) (by decide)]
  have hsc : splitComma (("{a,b{c,d}}".toList.drop (0 + 1)).take (8 - (0 + 1)))
      = [['a'], ['b', '{', 'c'], ['d']] := by decide
  rw [hsc]
  simp only [List.map_cons, List.map_nil]
  have e1 : "{a,b{c,d}}".toList.take 0 ++ ['a'] ++ "{a,b{c,d}}".toList.drop (8 + 1)
      = "a\x7d".toList := by decide
  have e2 : "{a,b{c,d}}".toList.take 0 ++ ['b', '{', 'c']
        ++ "{a,b{c,d}}".toList.drop (8 + 1)
      = "b{c}".toList := by decide
  have e3 : "{a,b{c,d}}".toList.take 0 ++ ['d'] ++ "{a,b{c,d}}".toList.drop (8 + 1)
      = "d\x7d".toList := by decide
  rw [e1, e2, e3]
  rw [@expandBracesL_no_open "a\x7d".toList (by decide)]
  rw [@expandBracesL_found "b{c}".toList 1 3 (by decide) (by decide)]
  have hsc2 : splitComma (("b{c}".toList.drop (1 + 1)).take (3 - (1 + 1)))
      = [['c']] := by decide
  rw [hsc2]
  simp only [List.map_cons, List.map_nil]
  have e4 : "b{c}".toList.take 1 ++ ['c'] ++ "b{c}".toList.drop (3 + 1)
      = "bc".toList := by decide
  rw [e4]
  rw [@expandBracesL_no_open "bc".toList (by decide),
    @expandBracesL_no_open "d\x7d".toList (by decide)]
  decide

/-- C8 counterexample: two conjuncts of the claim fail on the code.
(1) `_expand_braces("pat\x7ba,b,c\x7dsuf")` yields
`patasuf, patbsuf, patcsuf` — not `pata.suf, patb.suf, patc.suf`: no `.`
separator is inserted between choice and suffix.
(2) Expansion is NOT recursive for nested brace groups:
`\x7ba,b\x7bc,d\x7d\x7d` yields the mangled `a\x7d, bc, d\x7d` (the first
closing brace ends the outer group inside the inner one), not the
recursive nested expansion `a, bc, bd`. -/
theorem C8_expand_braces_counterexample :
    (expand_braces "pat{a,b,c}suf" = ["patasuf", "patbsuf", "patcsuf"] ∧
      expand_braces "pat{a,b,c}suf" ≠ ["pata.suf", "patb.suf", "patc.suf"]) ∧
    (expand_braces "{a,b{c,d}}" = ["a\x7d", "bc", "d\x7d"] ∧
      expand_braces "{a,b{c,d}}" ≠ ["a", "bc", "bd"]) := by
  refine ⟨⟨expand_braces_example, ?_⟩, ⟨expand_braces_nested, ?_⟩⟩
  · rw [expand_braces_example]
    decide
  · rw [expand_braces_nested]
    decide

/-- C8 (amended): brace expansion of `pat\x7ba,b,c\x7dsuf` yields exactly
`patasuf, patbsuf, patcsuf` (each choice is spliced verbatim between the
text before the braces and after them — no separator is inserted).
Expansion repeatedly rewrites on the first `\x7b` and the first `\x7d`
after it: for multiple sequential groups this is the usual recursive
product, but a nested group is split at the inner closing brace
(`\x7ba,b\x7bc,d\x7d\x7d` yields `a\x7d, bc, d\x7d`), so nested groups are
NOT expanded recursively.  A pattern with no `\x7b` expands to the
single-element tuple containing itself; and a pattern with malformed
(unmatched) braces — no `\x7d` at all, or no `\x7d` anywhere after the
first `\x7b`, as in `a\x7db\x7bc` — passes through unchanged. -/
theorem C8_expand_braces_amended :
    expand_braces "pat{a,b,c}suf" = ["patasuf", "patbsuf", "patcsuf"] ∧
    expand_braces "a{b,c}{d,e}" = ["abd", "abe", "acd", "ace"] ∧
    expand_braces "{a,b{c,d}}" = ["a\x7d", "bc", "d\x7d"] ∧
    (∀ p : String, '{' ∉ p.toList → expand_braces p = [p]) ∧
    (∀ p : String, '}' ∉ p.toList → expand_braces p = [p]) ∧
    (∀ (p : String) (l r : List Char),
        p.toList = l ++ '{' :: r → '{' ∉ l → '}' ∉ r →
        expand_braces p = [p]) :=
  ⟨expand_braces_example, expand_braces_multi, expand_braces_nested,
    fun _ h => expand_braces_no_open h,
    fun _ h => expand_braces_no_close h,
    fun p l r hdec hl hr => expand_braces_unmatched_open p l r hdec hl hr⟩

/-- Witness for C8 (amended) at concrete inputs: a pattern with no braces,
one with an unmatched opening brace and no closing brace, and the mixed
malformed pattern `a\x7db\x7bc` (a stray `\x7d` before the unmatched
`\x7b`). -/
theorem C8_expand_braces_amended_witness :
    expand_braces "pat{a,b,c}suf" = ["patasuf", "patbsuf", "patcsuf"] ∧
    ('{' ∉ "plain".toList ∧ expand_braces "plain" = ["plain"]) ∧
    ('}' ∉ "pat\x7bab".toList ∧ expand_braces "pat\x7bab" = ["pat\x7bab"]) ∧
    ("a\x7db\x7bc".toList = ['a', '}', 'b'] ++ '{' :: ['c'] ∧
      '{' ∉ ['a', '}', 'b'] ∧ '}' ∉ ['c'] ∧
      expand_braces "a\x7db\x7bc" = ["a\x7db\x7bc"]) :=
  ⟨C8_expand_braces_amended.1,
    ⟨by decide, C8_expand_braces_amended.2.2.2.1 "plain" (by decide)⟩,
    ⟨by decide, C8_expand_braces_amended.2.2.2.2.1 "pat\x7bab" (by decide)⟩,
    ⟨by decide, by decide, by decide,
      C8_expand_braces_amended.2.2.2.2.2 "a\x7db\x7bc" ['a', '}', 'b'] ['c']
        (by decide) (by decide) (by decide)⟩⟩

/-! ## Work queue and threaded scanner base (src/dux/scan/_base.py) -/

/-- `_Task` from src/dux/scan/_base.py: a directory node and its depth. -/
structure Task where
  node : ScanNode
  depth : Nat
deriving Repr

/-- State of a `_WorkQueue` (src/dux/scan/_base.py): the deque of pending
tasks, the outstanding enqueued-but-not-done counter, the completion event
and the shutdown flag. -/
structure WorkQueue where
  deque : List Task
  outstanding : Int
  done : Bool
  shutdownFlag : Bool
deriving Repr

/-- `_WorkQueue.__init__`. -/
def WorkQueue.init : WorkQueue := ⟨[], 0, false, false⟩

/-- Outcome of one `_WorkQueue.get()` call. -/
inductive GetResult where
  | task (t : Task)
  | sentinel
  | blocked
deriving Repr

/-- `_WorkQueue.get` from src/dux/scan/_base.py:
`while not self._deque: if self._shutdown: return None; wait()`, then
`popleft()`.  From a state with a non-empty deque the front task is
returned; with an empty deque the call returns the `None` sentinel when the
shutdown flag is set, and otherwise blocks on the condition variable
(modelled as the `blocked` outcome). -/
def WorkQueue.get (q : WorkQueue) : GetResult × WorkQueue :=
  match q.deque with
  | [] => if q.shutdownFlag then (.sentinel, q) else (.blocked, q)
  | t :: rest => (.task t, { q with deque := rest })

/-- `_WorkQueue.put`. -/
def WorkQueue.put (q : WorkQueue) (t : Task) : WorkQueue :=
  { q with deque := q.deque ++ [t], outstanding := q.outstanding + 1 }

/-- `_WorkQueue.put_many`. -/
def WorkQueue.put_many (q : WorkQueue) (ts : List Task) : WorkQueue :=
  { q with deque := q.deque ++ ts, outstanding := q.outstanding + ts.length }

/-- `_WorkQueue.task_done`: decrement outstanding; completion when zero. -/
def WorkQueue.task_done (q : WorkQueue) : WorkQueue :=
  { q with outstanding := q.outstanding - 1,
           done := q.done || (q.outstanding - 1 == 0) }

/-- `_WorkQueue.shutdown`: set the flag and wake all waiters. -/
def WorkQueue.shutdown (q : WorkQueue) : WorkQueue :=
  { q with shutdownFlag := true }

/-- A concrete task for the queue counterexample. -/
def demoTask : Task := ⟨ScanNode.directory "/r" "r", 0⟩

/-- C6 counterexample: enqueue one task, call `shutdown()`, then `get()`:
the task — not the `None` sentinel — is returned, because `get` only
consults the shutdown flag when the deque is empty. -/
theorem C6_get_after_shutdown_counterexample :
    ((WorkQueue.init.put demoTask).shutdown).get
      = (GetResult.task demoTask,
          { deque := [], outstanding := 1, done := false, shutdownFlag := true }) ∧
    ∀ q' : WorkQueue,
      ((WorkQueue.init.put demoTask).shutdown).get ≠ (GetResult.sentinel, q') := by
  constructor
  · rfl
  · intro q' h
    rw [show ((WorkQueue.init.put demoTask).shutdown).get
        = (GetResult.task demoTask,
            { deque := [], outstanding := 1, done := false,
              shutdownFlag := true }) from rfl] at h
    cases h

/-- C6 (amended): after `shutdown()` has been called, `get()` never blocks:
it returns the `None` sentinel exactly when the deque is empty; if tasks
remain enqueued, the next task is still returned. -/
theorem C6_get_after_shutdown_amended (q : WorkQueue)
    (h : q.shutdownFlag = true) :
    (q.deque = [] → q.get = (GetResult.sentinel, q)) ∧
    (∀ t rest, q.deque = t :: rest →
        q.get = (GetResult.task t, { q with deque := rest })) ∧
    (∀ r q', q.get = (r, q') → r ≠ GetResult.blocked) := by
  refine ⟨?_, ?_, ?_⟩
  · intro hd
    rw [WorkQueue.get, hd, if_pos h]
  · intro t rest hd
    rw [WorkQueue.get, hd]
  · intro r q' hget hr
    subst hr
    rw [WorkQueue.get] at hget
    cases hd : q.deque with
    | nil =>
      rw [hd, if_pos h] at hget
      cases hget
    | cons t rest =>
      rw [hd] at hget
      cases hget

/-- Witness for C6 (amended) on a concrete empty, shut-down queue. -/
theorem C6_get_after_shutdown_amended_witness :
    WorkQueue.init.shutdown.shutdownFlag = true ∧
    WorkQueue.init.shutdown.get = (GetResult.sentinel, WorkQueue.init.shutdown) :=
  ⟨rfl, (C6_get_after_shutdown_amended WorkQueue.init.shutdown rfl).1 rfl⟩

/-! ## Root validation and scan start-up (src/dux/scan/_base.py) -/

/-- `StatInfo` of the `FileSystem` port (§4.A): is_dir, apparent size,
on-disk allocation, mtime. -/
structure StatInfo where
  is_dir : Bool
  size : Nat
  disk_usage : Nat
  mtime : Int
deriving DecidableEq, Repr

/-- A `scandir` entry of the `FileSystem` port: `stat` is `none` when the
per-entry stat failed. -/
structure Entry where
  path : String
  name : String
  stat : Option StatInfo
deriving DecidableEq, Repr

/-- The `FileSystem` port (§4.A; the concrete implementation lives in
dux/services/fs.py, outside the specified core).  Operations are total
functions; `stat` and `scandir` return `Except` with the OSError message as
the error payload. -/
structure FileSystem where
  expanduser : String → String
  pathExists : String → Bool
  absolute : String → String
  stat : String → Except String StatInfo
  scandir : String → Except String (List Entry)

/-- `ScanErrorCode` from src/dux/models/scan.py. -/
inductive ScanErrorCode where
  | not_found
  | not_directory
  | root_stat_failed
  | cancelled
  | internal
deriving DecidableEq, Repr

/-- `ScanError` from src/dux/models/scan.py. -/
structure ScanError where
  code : ScanErrorCode
  path : String
  message : String
deriving DecidableEq, Repr

/-- `ScanStats` from src/dux/models/scan.py. -/
structure ScanStats where
  files : Nat
  directories : Nat
  access_errors : Nat
deriving DecidableEq, Repr

/-- `resolve_root` from src/dux/scan/_base.py: expanduser → existence check
→ absolute → stat, mapping failures to NOT_FOUND / ROOT_STAT_FAILED /
NOT_DIRECTORY and returning the resolved path on success. -/
def resolve_root (path : String) (fs : FileSystem) : Except ScanError String :=
  let expanded := fs.expanduser path
  if ¬ fs.pathExists expanded then
    .error ⟨.not_found, expanded, "Path does not exist"⟩
  else
    let resolved := fs.absolute expanded
    match fs.stat resolved with
    | .error msg =>
      .error ⟨.root_stat_failed, resolved, "Cannot stat root: " ++ msg⟩
    | .ok root_stat =>
      if ¬ root_stat.is_dir then
        .error ⟨.not_directory, resolved, "Path is not a directory"⟩
      else
        .ok resolved

/-- `resolved_root.rsplit("/", 1)[-1] or resolved_root` from
`ThreadedScannerBase.scan`: the text after the last `/` (the whole string
when there is no `/`), falling back to the full path when that is empty. -/
def root_display_name (s : String) : String :=
  let last := ((s.toList.splitOn '/').getLastD []).asString
  if last = "" then s else last

/-- The start-up prefix of `ThreadedScannerBase.scan` (src/dux/scan/_base.py
lines 176–187): validate the root, construct the root `DirectoryNode`, and
enqueue it at depth 0 with `stats = ScanStats(files=0, directories=1,
access_errors=0)`. -/
def scan_init (path : String) (fs : FileSystem) :
    Except ScanError (ScanNode × WorkQueue × ScanStats) :=
  match resolve_root path fs with
  | .error e => .error e
  | .ok resolved_root =>
    let root_node := ScanNode.directory resolved_root (root_display_name resolved_root)
    let q := WorkQueue.init.put ⟨root_node, 0⟩
    .ok (root_node, q, ⟨0, 1, 0⟩)

/-- C7: `scan` validates the root before spawning workers in the order
expanduser → existence check → absolute → stat; it returns NOT_FOUND
exactly when the expanded path does not exist, ROOT_STAT_FAILED exactly
when stat on the resolved path raises, NOT_DIRECTORY exactly when the stat
reports a non-directory; and on success the root directory node is
constructed and enqueued at depth 0. -/
theorem C7_root_validation (fs : FileSystem) (path : String) :
    ((∃ e, resolve_root path fs = .error e ∧ e.code = .not_found) ↔
        fs.pathExists (fs.expanduser path) = false) ∧
    ((∃ e, resolve_root path fs = .error e ∧ e.code = .root_stat_failed) ↔
        (fs.pathExists (fs.expanduser path) = true ∧
          ∃ msg, fs.stat (fs.absolute (fs.expanduser path)) = .error msg)) ∧
    ((∃ e, resolve_root path fs = .error e ∧ e.code = .not_directory) ↔
        (fs.pathExists (fs.expanduser path) = true ∧
          ∃ st, fs.stat (fs.absolute (fs.expanduser path)) = .ok st ∧
            st.is_dir = false)) ∧
    (∀ r, resolve_root path fs = .ok r →
        r = fs.absolute (fs.expanduser path) ∧
        scan_init path fs =
          .ok (ScanNode.directory r (root_display_name r),
            { deque := [⟨ScanNode.directory r (root_display_name r), 0⟩],
              outstanding := 1, done := false, shutdownFlag := false },
            ⟨0, 1, 0⟩)) := by
  by_cases hex : fs.pathExists (fs.expanduser path) = true
  · cases hstat : fs.stat (fs.absolute (fs.expanduser path)) with
    | error msg =>
      refine ⟨?_, ?_, ?_, ?_⟩
      · simp [resolve_root, hex, hstat]
      · simp [resolve_root, hex, hstat]
      · simp [resolve_root, hex, hstat]
      · intro r hr
        rw [resolve_root] at hr
        simp [hex, hstat] at hr
    | ok st =>
      by_cases hdir : st.is_dir = true
      · refine ⟨?_, ?_, ?_, ?_⟩
        · simp [resolve_root, hex, hstat, hdir]
        · simp [resolve_root, hex, hstat, hdir]
        · simp [resolve_root, hex, hstat, hdir]
        · intro r hr
          rw [resolve_root] at hr
          simp [hex, hstat, hdir] at hr
          subst hr
          refine ⟨rfl, ?_⟩
          rw [scan_init]
          simp [resolve_root, hex, hstat, hdir]
          rfl
      · have hdir' : st.is_dir = false := Bool.eq_false_iff.mpr hdir
        refine ⟨?_, ?_, ?_, ?_⟩
        · simp [resolve_root, hex, hstat, hdir']
        · simp [resolve_root, hex, hstat, hdir']
        · simp [resolve_root, hex, hstat, hdir']
        · intro r hr
          rw [resolve_root] at hr
          simp [hex, hstat, hdir'] at hr
  · have hex' : fs.pathExists (fs.expanduser path) = false :=
      Bool.eq_false_iff.mpr hex
    refine ⟨?_, ?_, ?_, ?_⟩
    · simp [resolve_root, hex']
    · simp [resolve_root, hex']
    · simp [resolve_root, hex']
    · intro r hr
      rw [resolve_root] at hr
      simp [hex'] at hr

/-- A concrete in-memory filesystem: the directory `/r` holding one file
`/r/f` of apparent size 5 and disk usage 5. -/
def demoFS : FileSystem where
  expanduser := fun s => s
  pathExists := fun s => s == "/r" || s == "/r/f"
  absolute := fun s => s
  stat := fun s =>
    if s == "/r" then .ok ⟨true, 0, 0, 0⟩
    else if s == "/r/f" then .ok ⟨false, 5, 5, 0⟩
    else .error "No such file or directory"
  scandir := fun s =>
    if s == "/r" then .ok [⟨"/r/f", "f", some ⟨false, 5, 5, 0⟩⟩]
    else .error "No such file or directory"

/-- Witness for C7 on `demoFS`: successful validation of `/r` (node
constructed and enqueued at depth 0) and NOT_FOUND for a missing root. -/
theorem C7_root_validation_witness :
    resolve_root "/r" demoFS = .ok "/r" ∧
    scan_init "/r" demoFS =
      .ok (ScanNode.directory "/r" (root_display_name "/r"),
        { deque := [⟨ScanNode.directory "/r" (root_display_name "/r"), 0⟩],
          outstanding := 1, done := false, shutdownFlag := false },
        ⟨0, 1, 0⟩) ∧
    (∃ e, resolve_root "/missing" demoFS = .error e ∧
      e.code = ScanErrorCode.not_found) := by
  refine ⟨rfl, ?_, ?_⟩
  · exact ((C7_root_validation demoFS "/r").2.2.2 "/r" rfl).2
  · exact (C7_root_validation demoFS "/missing").1.mpr rfl

/-! ## fnmatch-style glob matching (Python `fnmatch`, used by
`_match_pattern_slow` in src/dux/services/patterns.py).

Semantics of `fnmatch.fnmatch` on POSIX (where `os.path.normcase` is the
identity): `*` matches any run of characters, `?` one character, `[...]` a
character class (leading `!` negates, a leading `]` is a literal member,
`-` denotes a range, an unmatched `[` is a literal), anchored at both
ends. -/

/-- Scan a character class for its closing `]`, returning the class body
and the remainder of the pattern (`none` when the class is unterminated). -/
def scanToClose : List Char → Option (List Char × List Char)
  | [] => none
  | c :: rest =>
    if c = ']' then some ([], rest)
    else (scanToClose rest).map (fun sa => (c :: sa.1, sa.2))

/-- Class body parse, treating a leading `]` as a literal member. -/
def parseClassBody : List Char → Option (List Char × List Char)
  | [] => none
  | c :: rest =>
    if c = ']' then (scanToClose rest).map (fun sa => (']' :: sa.1, sa.2))
    else scanToClose (c :: rest)

/-- Parse the text following `[`: negation flag, class body, remainder. -/
def parseClass : List Char → Option (Bool × List Char × List Char)
  | [] => none
  | c :: rest =>
    if c = '!' then (parseClassBody rest).map (fun sa => (true, sa.1, sa.2))
    else (parseClassBody (c :: rest)).map (fun sa => (false, sa.1, sa.2))

/-- Membership of a character in a class body (`a-z` ranges, literals). -/
def matchClassChar : List Char → Char → Bool
  | [], _ => false
  | a :: '-' :: b :: rest, c =>
    if a ≤ c ∧ c ≤ b then true else matchClassChar rest c
  | a :: rest, c => if a = c then true else matchClassChar rest c

theorem scanToClose_length (l : List Char) :
    ∀ spec rest : List Char,
      scanToClose l = some (spec, rest) → rest.length < l.length := by
  induction l with
  | nil =>
    intro spec rest h
    simp [scanToClose] at h
  | cons c cs ih =>
    intro spec rest h
    rw [scanToClose] at h
    by_cases hc : c = ']'
    · rw [if_pos hc] at h
      cases h
      simp
    · rw [if_neg hc] at h
      cases hsc : scanToClose cs with
      | none =>
        rw [hsc] at h
        cases h
      | some sa =>
        rw [hsc] at h
        simp at h
        have hlt := ih sa.1 sa.2 (by rw [hsc])
        rw [← h.2]
        simp
        omega

theorem parseClassBody_length (l : List Char) :
    ∀ spec rest : List Char,
      parseClassBody l = some (spec, rest) → rest.length < l.length := by
  intro spec rest h
  cases l with
  | nil => simp [parseClassBody] at h
  | cons c cs =>
    rw [parseClassBody] at h
    by_cases hc : c = ']'
    · rw [if_pos hc] at h
      cases hsc : scanToClose cs with
      | none =>
        rw [hsc] at h
        cases h
      | some sa =>
        rw [hsc] at h
        simp at h
        have hlt := scanToClose_length cs sa.1 sa.2 (by rw [hsc])
        rw [← h.2]
        simp
        omega
    · rw [if_neg hc] at h
      have hlt := scanToClose_length (c :: cs) spec rest h
      exact hlt

theorem parseClass_length (l : List Char) :
    ∀ (neg : Bool) (spec rest : List Char),
      parseClass l = some (neg, spec, rest) → rest.length < l.length := by
  intro neg spec rest h
  cases l with
  | nil => simp [parseClass] at h
  | cons c cs =>
    rw [parseClass] at h
    by_cases hc : c = '!'
    · rw [if_pos hc] at h
      cases hb : parseClassBody cs with
      | none =>
        rw [hb] at h
        cases h
      | some sa =>
        rw [hb] at h
        simp at h
        have hlt := parseClassBody_length cs sa.1 sa.2 (by rw [hb])
        rw [h.2] at hlt
        simp at hlt
        simp
        omega
    · rw [if_neg hc] at h
      cases hb : parseClassBody (c :: cs) with
      | none =>
        rw [hb] at h
        cases h
      | some sa =>
        rw [hb] at h
        simp at h
        have hlt := parseClassBody_length (c :: cs) sa.1 sa.2 (by rw [hb])
        rw [h.2] at hlt
        simpa using hlt

/-- `fnmatch.fnmatchcase(s, p)` (anchored glob match), recursive
backtracking formulation. -/
def glob_match (p s : List Char) : Bool :=
  match p, s with
  | [], [] => true
  | [], _ :: _ => false
  | '*' :: ps, s =>
    glob_match ps s ||
      (match s with
       | [] => false
       | _ :: s2 => glob_match ('*' :: ps) s2)
  | '?' :: ps, s =>
    (match s with
     | [] => false
     | _ :: s2 => glob_match ps s2)
  | '[' :: ps, s =>
    (match hpc : parseClass ps with
     | none =>
       (match s with
        | [] => false
        | c :: s2 => c = '[' && glob_match ps s2)
     | some nsr =>
       (match s with
        | [] => false
        | c :: s2 =>
          (if nsr.1 then !(matchClassChar nsr.2.1 c)
           else matchClassChar nsr.2.1 c) && glob_match nsr.2.2 s2))
  | c :: ps, s =>
    (match s with
     | [] => false
     | c2 :: s2 => c = c2 && glob_match ps s2)
termination_by p.length + s.length
decreasing_by
  all_goals simp
  all_goals try omega
  have hlt := parseClass_length ps nsr.1 nsr.2.1 nsr.2.2 (by rw [hpc])
  simp at hlt
  omega

/-- `fnmatch.fnmatch(name, pat)` at the `str` level (POSIX: no case
normalization beyond what the callers already did). -/
def fnmatch (name pat : String) : Bool :=
  glob_match pat.toList name.toList

/-! ## Pattern classification and the compiled ruleset
(src/dux/services/patterns.py) -/

/-- `str.lower` for one character (ASCII case mapping; the rule patterns
and paths of this codebase are ASCII). -/
def lowerChar (c : Char) : Char :=
  if 'A' ≤ c ∧ c ≤ 'Z' then Char.ofNat (c.toNat + 32) else c

/-- Python `str.lower` (ASCII): lowercase every character. -/
def str_lower (s : String) : String := ⟨s.data.map lowerChar⟩

/-- `_match_pattern_slow` from src/dux/services/patterns.py: the fnmatch
fallback — a trailing `/**` also matches the directory itself, then the
full path, then the basename. -/
def match_pattern_slow (pattern normalized_path basename : String) : Bool :=
  (pattern.endsWith "/**" && fnmatch normalized_path (pattern.dropRight 3)) ||
    fnmatch normalized_path pattern || fnmatch basename pattern

/-- `_has_glob_chars`. -/
def has_glob_chars (s : String) : Bool :=
  s.toList.any fun c => c = '*' || c = '?' || c = '['

/-- Matcher kinds (module-level ints `_CONTAINS` … `_GLOB`). -/
inductive MatcherKind where
  | contains
  | endswith
  | startswith
  | exact
  | glob
deriving DecidableEq, Repr

/-- `_Matcher` from src/dux/services/patterns.py. -/
structure Matcher where
  kind : MatcherKind
  value : String
  alt : String
deriving DecidableEq, Repr

/-- `_classify` from src/dux/services/patterns.py.  All stored literals are
lowercased at compile time (`String.toLower` models `str.lower` on the
ASCII patterns this codebase uses). -/
def classify (pattern : String) : Matcher :=
  if ¬ pattern.startsWith "**/" then ⟨.glob, str_lower pattern, ""⟩
  else
    let rest := pattern.drop 3
    if rest.endsWith "/**" then
      let middle := rest.dropRight 3
      if ¬ has_glob_chars middle then
        let mid := str_lower middle
        ⟨.contains, "/" ++ mid ++ "/", "/" ++ mid⟩
      else ⟨.glob, str_lower pattern, ""⟩
    else if rest.startsWith "*" && ¬ has_glob_chars (rest.drop 1) then
      ⟨.endswith, str_lower (rest.drop 1), ""⟩
    else if rest.endsWith "*" && ¬ has_glob_chars (rest.dropRight 1) then
      ⟨.startswith, str_lower (rest.dropRight 1), ""⟩
    else if ¬ has_glob_chars rest then ⟨.exact, str_lower rest, ""⟩
    else ⟨.glob, str_lower pattern, ""⟩

/-- Append to a Python dict-of-lists entry (`d.setdefault(k, []).append(v)`),
modelling the dict as an insertion-ordered association list. -/
def assocAppend {α : Type} (d : List (String × List α)) (k : String) (v : α) :
    List (String × List α) :=
  match d with
  | [] => [(k, [v])]
  | (k2, vs) :: rest =>
    if k2 = k then (k2, vs ++ [v]) :: rest else (k2, vs) :: assocAppend rest k v

/-- Python `d.get(k)` on an association list. -/
def assocGet {α : Type} (d : List (String × α)) (k : String) : Option α :=
  match d with
  | [] => none
  | (k2, v) :: rest => if k2 = k then some v else assocGet rest k

/-- `_build_ac` from src/dux/services/patterns.py, with the automaton kept
as its dictionary (key → list of `(rule, end_only)`): a CONTAINS entry
contributes the anywhere key `val` and the end-anchored key `alt`; an
ENDSWITH entry has an empty `val` (skipped) and only its end-anchored key.
`None` (no entries) is represented by the empty dictionary. -/
def build_ac (entries : List (String × String × PatternRule)) :
    List (String × List (PatternRule × Bool)) :=
  entries.foldl
    (fun d e =>
      let d1 := if e.1 ≠ "" then assocAppend d e.1 (e.2.2, false) else d
      if e.2.1 ≠ "" then assocAppend d1 e.2.1 (e.2.2, true) else d1)
    []

/-- `AhoCorasick.iter` of dux/_ac_matcher (not under the specified core).
Modelled from the spec: `iter(text)` returns every `(end_index, value)`
pair, for every dictionary key that occurs in `text`, where `end_index` is
the 0-based index of the last character of the occurrence; empty keys never
match; all overlapping occurrences are enumerated.  Occurrences are listed
by increasing end index and, at one end index, in dictionary insertion
order. -/
def acIter (keys : List (String × List (PatternRule × Bool))) (text : List Char) :
    List (Nat × List (PatternRule × Bool)) :=
  (List.range text.length).flatMap fun e =>
    keys.filterMap fun kv =>
      if kv.1.toList ≠ [] ∧ kv.1.toList.isSuffixOf (text.take (e + 1)) then
        some (e, kv.2)
      else none

/-- `_ByKind` from src/dux/services/patterns.py: all pattern rules for one
node kind, indexed by matcher kind (`exact` dict, automaton dictionary,
startswith / glob / additional sequences). -/
structure ByKind where
  exact : List (String × List PatternRule) := []
  ac : List (String × List (PatternRule × Bool)) := []
  startswith : List (String × PatternRule) := []
  glob : List (String × PatternRule) := []
  additional : List (String × PatternRule) := []
deriving DecidableEq, Repr

/-- `_ByKindBuilder` from src/dux/services/patterns.py. -/
structure ByKindBuilder where
  exact : List (String × List PatternRule) := []
  ac_entries : List (String × String × PatternRule) := []
  startswith : List (String × PatternRule) := []
  glob : List (String × PatternRule) := []
  additional : List (String × PatternRule) := []
deriving DecidableEq, Repr

/-- `_ByKindBuilder.add`. -/
def builderAdd (b : ByKindBuilder) (m : Matcher) (rule : PatternRule) :
    ByKindBuilder :=
  match m.kind with
  | .exact => { b with exact := assocAppend b.exact m.value rule }
  | .contains => { b with ac_entries := b.ac_entries ++ [(m.value, m.alt, rule)] }
  | .endswith => { b with ac_entries := b.ac_entries ++ [("", m.value, rule)] }
  | .startswith => { b with startswith := b.startswith ++ [(m.value, rule)] }
  | .glob => { b with glob := b.glob ++ [(m.value, rule)] }

/-- `_ByKindBuilder.build`. -/
def builderBuild (b : ByKindBuilder) : ByKind :=
  ⟨b.exact, build_ac b.ac_entries, b.startswith, b.glob, b.additional⟩

/-- `CompiledRuleSet` from src/dux/services/patterns.py. -/
structure CompiledRuleSet where
  for_file : ByKind := {}
  for_dir : ByKind := {}
deriving DecidableEq, Repr

/-- `compile_ruleset` from src/dux/services/patterns.py: brace-expand and
classify every rule, distributing it into the file and/or dir builder
according to the `apply_to` IntFlag bits; then register the pre-normalized
`(base_path, rule)` additional entries the same way (the Python `None`
default is the empty list here). -/
def compile_ruleset (rules : List PatternRule)
    (additional_paths : List (String × PatternRule)) : CompiledRuleSet :=
  let bs := rules.foldl
    (fun (bs : ByKindBuilder × ByKindBuilder) rule =>
      (expand_braces rule.pattern).foldl
        (fun (bs : ByKindBuilder × ByKindBuilder) pat =>
          let m := classify pat
          (if rule.apply_to.hasFile then builderAdd bs.1 m rule else bs.1,
           if rule.apply_to.hasDir then builderAdd bs.2 m rule else bs.2))
        bs)
    ({}, {})
  let bs2 := additional_paths.foldl
    (fun (bs : ByKindBuilder × ByKindBuilder) br =>
      (if br.2.apply_to.hasFile then
          { bs.1 with additional := bs.1.additional ++ [br] } else bs.1,
       if br.2.apply_to.hasDir then
          { bs.2 with additional := bs.2.additional ++ [br] } else bs.2))
    bs
  ⟨builderBuild bs2.1, builderBuild bs2.2⟩

/-! ## match_all (src/dux/services/patterns.py) -/

/-- The running state of one `match_all` call: the `seen` category-value
set and the `matched` output list. -/
structure MatchState where
  seen : List String
  matched : List PatternRule
deriving DecidableEq, Repr

/-- The `_try` gatekeeper of `match_all`: first match per category wins. -/
def tryRule (st : MatchState) (rule : PatternRule) : MatchState :=
  if rule.category.value ∈ st.seen then st
  else ⟨st.seen ++ [rule.category.value], st.matched ++ [rule]⟩

/-- `match_all` from src/dux/services/patterns.py.  The five tiers run in
order — EXACT (dict lookup on `lbase`), the Aho-Corasick pass over `lpath`
(end-anchored hits only fire at `len(lpath) - 1`), STARTSWITH on `lbase`,
the GLOB fnmatch fallback, and the additional-path literal prefix checks on
the raw-case `raw_path` — every hit filtered through the `_try`
first-match-per-category gatekeeper.  Empty `ac` stands for the Python
`None` automaton, and an empty `hits`/`additional` list makes the
corresponding Python truthiness guard and the fold agree. -/
def match_all (rs : CompiledRuleSet) (lpath lbase : String) (is_dir : Bool)
    (raw_path : String) : List PatternRule :=
  let bk := if is_dir then rs.for_dir else rs.for_file
  let st0 : MatchState := ⟨[], []⟩
  let st1 := match assocGet bk.exact lbase with
    | none => st0
    | some hits => hits.foldl tryRule st0
  let st2 := (acIter bk.ac lpath.toList).foldl
    (fun st ev =>
      ev.2.foldl
        (fun st re =>
          if re.2 && decide (ev.1 ≠ lpath.toList.length - 1) then st
          else tryRule st re.1)
        st)
    st1
  let st3 := bk.startswith.foldl
    (fun st pr => if lbase.startsWith pr.1 then tryRule st pr.2 else st) st2
  let st4 := bk.glob.foldl
    (fun st pr => if match_pattern_slow pr.1 lpath lbase then tryRule st pr.2 else st)
    st3
  let st5 := bk.additional.foldl
    (fun st br =>
      if raw_path == br.1 || raw_path.startsWith (br.1 ++ "/") then tryRule st br.2
      else st)
    st4
  st5.matched

/-- The gatekeeper invariant: the matched rules carry pairwise-distinct
category values, all recorded in `seen`. -/
def MatchInv (st : MatchState) : Prop :=
  (st.matched.map fun r => r.category.value).Nodup ∧
  ∀ r ∈ st.matched, r.category.value ∈ st.seen

theorem tryRule_inv (st : MatchState) (rule : PatternRule) (h : MatchInv st) :
    MatchInv (tryRule st rule) := by
  rw [tryRule]
  by_cases hc : rule.category.value ∈ st.seen
  · rw [if_pos hc]
    exact h
  · rw [if_neg hc]
    have hnotin : rule.category.value ∉ st.matched.map fun r => r.category.value := by
      intro hmem
      obtain ⟨r, hr, hv⟩ := List.mem_map.mp hmem
      exact hc (hv ▸ h.2 r hr)
    constructor
    · simp only [List.map_append, List.map_cons, List.map_nil]
      rw [List.nodup_append]
      refine ⟨h.1, List.nodup_singleton _, ?_⟩
      intro v hv hv1
      simp at hv1
      subst hv1
      exact hnotin hv
    · intro r hr
      rcases List.mem_append.mp hr with hold | hnew
      · exact List.mem_append_left _ (h.2 r hold)
      · simp at hnew
        subst hnew
        exact List.mem_append_right _ (by simp)

theorem foldl_preserves {α : Type} (P : MatchState → Prop)
    (f : MatchState → α → MatchState)
    (hf : ∀ st x, P st → P (f st x)) :
    ∀ (l : List α) (st : MatchState), P st → P (l.foldl f st) := by
  intro l
  induction l with
  | nil =>
    intro st h
    exact h
  | cons x xs ih =>
    intro st h
    exact ih (f st x) (hf st x h)

/-- The final state of every `match_all` call satisfies the gatekeeper
invariant: each tier only ever calls `tryRule` or leaves the state alone. -/
theorem match_all_inv (bk : ByKind) (lpath lbase raw_path : String) :
    MatchInv
      (let st0 : MatchState := ⟨[], []⟩
       let st1 := match assocGet bk.exact lbase with
         | none => st0
         | some hits => hits.foldl tryRule st0
       let st2 := (acIter bk.ac lpath.toList).foldl
         (fun st ev =>
           ev.2.foldl
             (fun st re =>
               if re.2 && decide (ev.1 ≠ lpath.toList.length - 1) then st
               else tryRule st re.1)
             st)
         st1
       let st3 := bk.startswith.foldl
         (fun st pr => if lbase.startsWith pr.1 then tryRule st pr.2 else st) st2
       let st4 := bk.glob.foldl
         (fun st pr =>
           if match_pattern_slow pr.1 lpath lbase then tryRule st pr.2 else st)
         st3
       bk.additional.foldl
         (fun st br =>
           if raw_path == br.1 || raw_path.startsWith (br.1 ++ "/") then
             tryRule st br.2
           else st)
         st4) := by
  have h0 : MatchInv ⟨[], []⟩ := ⟨List.nodup_nil, by simp⟩
  have h1 : ∀ st : MatchState, MatchInv st →
      MatchInv (match assocGet bk.exact lbase with
        | none => st
        | some hits => hits.foldl tryRule st) := by
    intro st h
    cases assocGet bk.exact lbase with
    | none => exact h
    | some hits => exact foldl_preserves MatchInv tryRule tryRule_inv hits st h
  refine foldl_preserves MatchInv _ ?_ _ _
    (foldl_preserves MatchInv _ ?_ _ _
      (foldl_preserves MatchInv _ ?_ _ _
        (foldl_preserves MatchInv _ ?_ _ _ (h1 _ h0))))
  · intro st br h
    split
    · exact tryRule_inv st br.2 h
    · exact h
  · intro st pr h
    split
    · exact tryRule_inv st pr.2 h
    · exact h
  · intro st pr h
    split
    · exact tryRule_inv st pr.2 h
    · exact h
  · intro st ev h
    refine foldl_preserves MatchInv _ ?_ _ _ h
    intro st2 re h2
    split
    · exact h2
    · exact tryRule_inv st2 re.1 h2

/-- The matched list of `match_all` is the matched component of a state
satisfying the gatekeeper invariant (definitional repackaging of
`match_all_inv`). -/
theorem match_all_has_inv (rs : CompiledRuleSet) (lpath lbase : String)
    (is_dir : Bool) (raw_path : String) :
    ∃ st : MatchState, MatchInv st ∧
      st.matched = match_all rs lpath lbase is_dir raw_path :=
  ⟨_, match_all_inv (if is_dir then rs.for_dir else rs.for_file)
        lpath lbase raw_path, rfl⟩

theorem card_insightCategory : Fintype.card InsightCategory = 3 := rfl

/-- C4: for every compiled ruleset and every input, `match_all` runs the
tiers in the order EXACT → Aho-Corasick → STARTSWITH → GLOB → additional
(the order its definition evaluates them in) and the first-match-per-
category gatekeeper leaves at most one rule per category: the categories of
the returned rules are pairwise distinct, hence the returned list has
length at most 3, the number of `InsightCategory` members. -/
theorem C4_match_all_first_match_per_category (rs : CompiledRuleSet)
    (lpath lbase : String) (is_dir : Bool) (raw_path : String) :
    ((match_all rs lpath lbase is_dir raw_path).map PatternRule.category).Nodup ∧
    (match_all rs lpath lbase is_dir raw_path).length ≤ 3 := by
  obtain ⟨st, hinv, heq⟩ := match_all_has_inv rs lpath lbase is_dir raw_path
  rw [← heq]
  have hcat : (st.matched.map PatternRule.category).Nodup := by
    apply List.Nodup.of_map InsightCategory.value
    rw [List.map_map]
    exact hinv.1
  refine ⟨hcat, ?_⟩
  have hlen := hcat.length_le_card
  rw [List.length_map, card_insightCategory] at hlen
  exact hlen

/-! ## Case sensitivity of the matching pipeline
(src/dux/services/insights.py, src/dux/services/patterns.py) -/

/-- The per-node matching pipeline of the insight traversal
(src/dux/services/insights.py lines 115–124): lowercase `node.path` and
`node.name` once, then `match_all` over the compiled ruleset;
the original-case path is what `match_all`'s `raw_path` parameter receives
(per its signature and docstring — the call in `generate_insights` omits
it, see C1). -/
def match_pipeline (rs : CompiledRuleSet) (path basename : String)
    (is_dir : Bool) : List PatternRule :=
  match_all rs (str_lower path) (str_lower basename) is_dir path

/-- `raw_path` feeds only the additional tier: with an empty additional
tier for the relevant node kind, `match_all` ignores it. -/
theorem match_all_raw_irrelevant (rs : CompiledRuleSet) (lpath lbase : String)
    (is_dir : Bool) (raw1 raw2 : String)
    (hadd : (if is_dir then rs.for_dir else rs.for_file).additional = []) :
    match_all rs lpath lbase is_dir raw1 = match_all rs lpath lbase is_dir raw2 := by
  cases is_dir with
  | false =>
    simp only [Bool.false_eq_true, if_false] at hadd
    simp only [match_all, Bool.false_eq_true, if_false, hadd, List.foldl_nil]
  | true =>
    simp only [if_true] at hadd
    simp only [match_all, if_true, hadd, List.foldl_nil]

/-- The synthesized additional-path rule of the C5 counterexample (the
shape `generate_insights` builds for a user-marked directory, with the
base lowercased). -/
def addRule : PatternRule :=
  ⟨"Additional cache path", "/a/x", .cache, .both, false⟩

/-- A compiled ruleset whose only content is the additional entry
`("/a/x", addRule)` in both buckets. -/
def rsAdd : CompiledRuleSet :=
  { for_file := { additional := [("/a/x", addRule)] },
    for_dir := { additional := [("/a/x", addRule)] } }

/-- C5 counterexample: `/A/X` and `/a/x` are case-variants (identical once
lowercased), yet the pipeline matches the additional-path rule only for the
lower-case raw path, because the additional tier compares the raw-case path
against the (lowercased) base. -/
theorem C5_case_insensitive_counterexample :
    str_lower "/A/X" = str_lower "/a/x" ∧
    str_lower "X" = str_lower "x" ∧
    match_pipeline rsAdd "/A/X" "X" true = [] ∧
    match_pipeline rsAdd "/a/x" "x" true = [addRule] ∧
    match_pipeline rsAdd "/A/X" "X" true ≠ match_pipeline rsAdd "/a/x" "x" true := by
  refine ⟨by decide, by decide, by decide, by decide, by decide⟩

/-- C5 (amended): matching is case-insensitive in the EXACT, Aho-Corasick,
STARTSWITH and GLOB tiers — for every compiled ruleset whose additional
tier (for the relevant node kind) is empty, the pipeline (lowercase path
and basename once, then `match_all`) yields the same rule list for any two
case-variants of a path; the additional-path tier compares the raw-case
path against its base, so case variants may yield different additional-rule
matches. -/
theorem C5_case_insensitive_amended (rs : CompiledRuleSet)
    (p p2 b b2 : String) (is_dir : Bool)
    (hp : str_lower p = str_lower p2) (hb : str_lower b = str_lower b2)
    (hadd : (if is_dir then rs.for_dir else rs.for_file).additional = []) :
    match_pipeline rs p b is_dir = match_pipeline rs p2 b2 is_dir := by
  rw [match_pipeline, match_pipeline, hp, hb]
  exact match_all_raw_irrelevant rs (str_lower p2) (str_lower b2) is_dir p p2 hadd

/-- The `**/.ds_store` EXACT rule of spec scenario 7. -/
def dsRule : PatternRule := ⟨"ds", "**/.ds_store", .temp, .both, false⟩

/-- A compiled ruleset holding only the EXACT entry for `.ds_store`. -/
def rsExact : CompiledRuleSet :=
  { for_file := { exact := [(".ds_store", [dsRule])] },
    for_dir := { exact := [(".ds_store", [dsRule])] } }

/-- Witness for C5 (amended): `/r/DIR/.DS_STORE` and `/r/dir/.ds_store`
match identically (both hit the `.ds_store` EXACT rule). -/
theorem C5_case_insensitive_amended_witness :
    str_lower "/r/DIR/.DS_STORE" = str_lower "/r/dir/.ds_store" ∧
    str_lower ".DS_STORE" = str_lower ".ds_store" ∧
    rsExact.for_file.additional = [] ∧
    match_pipeline rsExact "/r/DIR/.DS_STORE" ".DS_STORE" false =
      match_pipeline rsExact "/r/dir/.ds_store" ".ds_store" false ∧
    match_pipeline rsExact "/r/DIR/.DS_STORE" ".DS_STORE" false = [dsRule] := by
  refine ⟨by decide, by decide, rfl, ?_, by decide⟩
  exact C5_case_insensitive_amended rsExact "/r/DIR/.DS_STORE" "/r/dir/.ds_store"
    ".DS_STORE" ".ds_store" false (by decide) (by decide) rfl

/-! ## PythonScanner and the worker loop
(src/dux/scan/python_scanner.py, src/dux/scan/_base.py) -/

/-- `PythonScanner._scan_dir` from src/dux/scan/python_scanner.py, as
written: it takes only the directory `path` (no parent node) and returns
`(entries, errors)`, where each entry is the raw tuple
`(path, name, is_dir, size_bytes, disk_usage)` built from `fs.scandir`
(directory sizes zeroed) and entries with a missing per-entry stat
increment `errors`.  This is NOT the `(dir_child_nodes, files, dirs,
errors)` 4-tuple the `_scan_dir` hook contract of `ThreadedScannerBase`
(and the tests' `_TestableScanner` subclass) requires, and it never
appends to `parent.children`. -/
def pythonScanner_scan_dir (fs : FileSystem) (path : String) :
    Except String (List (String × String × Bool × Nat × Nat) × Nat) :=
  match fs.scandir path with
  | .error msg => .error msg
  | .ok entries =>
    .ok (entries.foldl
      (fun acc e =>
        match e.stat with
        | none => (acc.1, acc.2 + 1)
        | some st =>
          (acc.1 ++ [(e.path, e.name, st.is_dir,
            if st.is_dir then 0 else st.size,
            if st.is_dir then 0 else st.disk_usage)], acc.2))
      ([], 0))

/-- The hook invocation `self._scan_dir(task.node, task.node.path)` in
`run_worker` (src/dux/scan/_base.py line 239), resolved against
`PythonScanner`: the bound method accepts one positional argument
(`path`), so the two-argument call raises `TypeError` before the method
body runs — no child node is created and nothing is appended to
`parent.children`. -/
def pythonHookCall (_parent : ScanNode) (_path : String) :
    Except PyError (List ScanNode × Nat × Nat × Nat) :=
  .error .typeError

/-- The `run_worker` loop of `ThreadedScannerBase.scan` (one worker),
specialised to `PythonScanner`: each iteration dequeues a task and invokes
the hook, which always raises `TypeError` (see `pythonHookCall`), so the
`except Exception` branch runs — one access error counted, nothing
enqueued — and the `finally` block flushes the local counters and calls
`task_done()`.  The queue only shrinks; once empty, `join()` returns,
`shutdown()` is signalled and the worker exits on the sentinel. -/
def runWorkerPython (q : List Task) (stats : ScanStats) : ScanStats :=
  match q with
  | [] => stats
  | t :: rest =>
    match pythonHookCall t.node t.node.path with
    | .error _ =>
      runWorkerPython rest { stats with access_errors := stats.access_errors + 1 }
    | .ok _ =>
      -- Unreachable: the hook call always raises (arity mismatch).  The
      -- source would append child nodes here, enqueue directory children
      -- within the depth gate, and emit batched progress.
      stats

/-- `PythonScanner(...).scan(path, options)` over a `FileSystem` port: the
start-up of `scan` (root validation, root node, queue) followed by the
worker loop — modelled as one sequential worker, which is observationally
complete here because the hook raises on every directory regardless of
interleaving — then `finalize_sizes` and the snapshot. -/
def scanPython (path : String) (fs : FileSystem) :
    Except ScanError (ScanNode × ScanStats) :=
  match scan_init path fs with
  | .error e => .error e
  | .ok rqs =>
    let final_stats := runWorkerPython rqs.2.1.deque rqs.2.2
    .ok (finalize_sizes rqs.1, final_stats)

/-- C2, evaluated at the failing input: scanning `/r` (holding the one
file `/r/f` of size 5) with `PythonScanner` yields a snapshot whose root
has NO children and stats `(files 0, directories 1, access_errors 1)` —
not the FILE child and `stats.files = 1` the claim describes — because
`run_worker` calls `self._scan_dir(task.node, task.node.path)` while
`PythonScanner._scan_dir` accepts only `path`: every call raises
`TypeError`, which the worker's broad `except` counts as an access error.
The second conjunct shows `PythonScanner._scan_dir` itself (called with
the one argument it accepts) returns raw entry tuples and an error count,
not appended child nodes. -/
theorem C2_python_scanner_code_bug :
    scanPython "/r" demoFS =
      .ok (ScanNode.mk "/r" "r" NodeKind.directory 0 0 [], ⟨0, 1, 1⟩) ∧
    pythonScanner_scan_dir demoFS "/r" =
      .ok ([("/r/f", "f", false, 5, 5)], 0) := by
  constructor
  · have hstep : scanPython "/r" demoFS =
        .ok (finalize_sizes (ScanNode.directory "/r" "r"), ⟨0, 1, 1⟩) := rfl
    rw [hstep,
      show ScanNode.directory "/r" "r"
        = ScanNode.mk "/r" "r" NodeKind.directory 0 0 [] from rfl,
      finalize_sizes_dir]
    rfl
  · rfl

/-! ## Insight generation (src/dux/services/insights.py) -/

/-- `Insight` (dux/models/insight.py sits outside the specified core).
Modelled from the spec: §3 — `(path, size_bytes, disk_usage, category,
summary, kind)`, a snapshot of a node's identity plus why it was
flagged. -/
structure Insight where
  path : String
  size_bytes : Nat
  category : InsightCategory
  summary : String
  kind : NodeKind
  disk_usage : Nat
deriving DecidableEq, Repr

/-- `CategoryStats` (dux/models/insight.py).  Modelled from the spec: §3 —
`CategoryStats{count, size_bytes, disk_usage, paths}`; the path set is a
deduplicated list. -/
structure CategoryStats where
  count : Nat := 0
  size_bytes : Nat := 0
  disk_usage : Nat := 0
  paths : List String := []
deriving DecidableEq, Repr

/-- `InsightBundle` (dux/models/insight.py).  Modelled from the spec: §3 —
the ordered insights plus the per-category aggregate mapping. -/
structure InsightBundle where
  insights : List Insight
  by_category : InsightCategory → CategoryStats

/-- The `AppConfig` fields `generate_insights` reads
(src/dux/config/schema.py). -/
structure AppConfig where
  patterns : List PatternRule := []
  additional_paths : List (InsightCategory × List String) := []
  max_insights_per_category : Nat := 1000

/-- A bounded-min-heap entry `(disk_usage, path, Insight)`. -/
def HeapEntry : Type := Nat × String × Insight

/-- Python `d[k] = v` on the `seen` dict. -/
def assocSet (d : List (String × Nat)) (k : String) (v : Nat) :
    List (String × Nat) :=
  match d with
  | [] => [(k, v)]
  | (k2, v2) :: rest =>
    if k2 = k then (k2, v) :: rest else (k2, v2) :: assocSet rest k v

/-- Insert an entry into the heap in ascending `(disk_usage, path)` order.
`heapq` keeps a binary-heap layout; this model keeps the fully sorted
sequence instead, which agrees on the only observations the source makes:
`heap[0]` is the minimum, and the extraction phase sorts the entries. -/
def heapInsert (e : HeapEntry) : List HeapEntry → List HeapEntry
  | [] => [e]
  | x :: xs =>
    if e.1 < x.1 || (e.1 == x.1 && decide (e.2.1 < x.2.1)) then e :: x :: xs
    else x :: heapInsert e xs

/-- `_heap_push` from src/dux/services/insights.py: skip when `seen` holds
an equal-or-higher usage for the path; otherwise update `seen` and push,
or pop-and-push when the heap is full and the new usage beats the minimum.
(The `max_size = 0` corner, where the source's `heap[0]` would raise
IndexError on an empty heap, is modelled as a skip; config minima keep
`max_insights_per_category ≥ 10`.) -/
def heap_push (heap : List HeapEntry) (seen : List (String × Nat))
    (insight : Insight) (max_size : Nat) :
    List HeapEntry × List (String × Nat) :=
  let skip := match assocGet seen insight.path with
    | some prev => decide (insight.disk_usage ≤ prev)
    | none => false
  if skip then (heap, seen)
  else
    let seen2 := assocSet seen insight.path insight.disk_usage
    let entry : HeapEntry := (insight.disk_usage, insight.path, insight)
    if heap.length < max_size then (heapInsert entry heap, seen2)
    else
      match heap with
      | [] => (heap, seen2)
      | top :: rest =>
        if insight.disk_usage > top.1 then (heapInsert entry rest, seen2)
        else (heap, seen2)

/-- `_insight_from_rule` from src/dux/services/insights.py. -/
def insight_from_rule (node : ScanNode) (rule : PatternRule) : Insight :=
  ⟨node.path, node.size_bytes, rule.category, rule.name, node.kind,
    node.disk_usage⟩

/-- The per-category traversal state of `generate_insights`: the bounded
min-heaps, their `seen` dedup dicts, and the unbounded aggregates. -/
structure InsightState where
  heaps : InsightCategory → List HeapEntry
  seen : InsightCategory → List (String × Nat)
  by_category : InsightCategory → CategoryStats

/-- `_record` from `generate_insights`: bump the aggregate counters and
push into the bounded heap of the insight's category. -/
def record_insight (st : InsightState) (max_size : Nat) (i : Insight) :
    InsightState :=
  let cs := st.by_category i.category
  let cs2 : CategoryStats :=
    { count := cs.count + 1, size_bytes := cs.size_bytes + i.size_bytes,
      disk_usage := cs.disk_usage + i.disk_usage,
      paths := if i.path ∈ cs.paths then cs.paths else cs.paths ++ [i.path] }
  let hs := heap_push (st.heaps i.category) (st.seen i.category) i max_size
  { heaps := fun c => if c = i.category then hs.1 else st.heaps c,
    seen := fun c => if c = i.category then hs.2 else st.seen c,
    by_category := fun c => if c = i.category then cs2 else st.by_category c }

/-- The call `match_all(ruleset, lpath, lbase, is_dir)` on line 124 of
src/dux/services/insights.py: `match_all` declares five required
positional parameters `(rs, lpath, lbase, is_dir, raw_path)` and
`raw_path` has no default, so this four-argument call raises
`TypeError: match_all() missing 1 required positional argument:
'raw_path'` — before any matching happens. -/
def match_all_call4 (_rs : CompiledRuleSet) (_lpath _lbase : String)
    (_is_dir : Bool) : Except PyError (List PatternRule) :=
  .error .typeError

/-- The iterative traversal of `generate_insights`: a LIFO stack of
`(node, in_temp_or_cache)` seeded with `(root, false)`.  Entries flagged
`in_temp_or_cache` are skipped; otherwise the node's path and basename are
lowercased once and `match_all` is called with four arguments — which
raises (see `match_all_call4`), aborting the whole generation.  The
recorded-rules / pruning / child-push logic that would follow a successful
match is unreachable. -/
def insight_loop (rs : CompiledRuleSet) (max_size : Nat)
    (stack : List (ScanNode × Bool)) (st : InsightState) :
    Except PyError InsightState :=
  match stack with
  | [] => .ok st
  | (node, in_tc) :: rest =>
    if in_tc then insight_loop rs max_size rest st
    else
      match match_all_call4 rs (str_lower node.path) (str_lower node.name)
          node.is_dir with
      | .error e => .error e
      | .ok _matched_rules =>
        -- Unreachable: the four-argument call always raises.  The source
        -- would record each matched rule via `_record`, compute
        -- `local_in_temp_cache` and the stop_recursion rule, and push the
        -- children in reverse order for directories.
        .ok st

/-- Python `str(Path(raw).expanduser())` on the additional-path bases.
Tilde expansion depends on the runtime HOME; modelled as the identity (no
claim exercises `~` paths). -/
def path_expanduser (s : String) : String := s

/-- `str.rstrip("/")`. -/
def rstrip_slash (s : String) : String :=
  ⟨(s.data.reverse.dropWhile (fun c => c = '/')).reverse⟩

/-- The iteration order `for cat in InsightCategory`. -/
def categoriesList : List InsightCategory := [.temp, .cache, .build_artifact]

/-- `sorted(heap, key=lambda e: e[0], reverse=True)` — stable descending
insertion sort on the usage component. -/
def sortEntriesDesc : List HeapEntry → List HeapEntry
  | [] => []
  | e :: rest => insertEntryDesc e (sortEntriesDesc rest)
where insertEntryDesc (e : HeapEntry) : List HeapEntry → List HeapEntry
  | [] => [e]
  | x :: xs => if e.1 < x.1 then x :: insertEntryDesc e xs else e :: x :: xs

/-- The phase-2 lazy dedup of `generate_insights`: walking the descending
entries, keep the first (freshest) occurrence of each path. -/
def dedupByPath : List HeapEntry → List String → List Insight
  | [], _ => []
  | e :: rest, cat_seen =>
    if e.2.1 ∈ cat_seen then dedupByPath rest cat_seen
    else e.2.2 :: dedupByPath rest (cat_seen ++ [e.2.1])

/-- `all_insights.sort(key=lambda x: x.disk_usage, reverse=True)` — stable
descending insertion sort. -/
def sortInsightsDesc : List Insight → List Insight
  | [] => []
  | i :: rest => insertInsightDesc i (sortInsightsDesc rest)
where insertInsightDesc (i : Insight) : List Insight → List Insight
  | [] => [i]
  | x :: xs =>
    if i.disk_usage < x.disk_usage then x :: insertInsightDesc i xs
    else i :: x :: xs

/-- `generate_insights` from src/dux/services/insights.py: synthesize the
additional-path rules (bases lowercased), compile the ruleset, run the
traversal, then extract the heaps (sort descending, dedup by path,
concatenate per category) and sort the flat list by `disk_usage`
descending.  The error channel carries the Python exception the traversal
raises. -/
def generate_insights (root : ScanNode) (config : AppConfig) :
    Except PyError InsightBundle :=
  let additional_paths := config.additional_paths.flatMap fun cp =>
    cp.2.map fun raw =>
      let base := str_lower (rstrip_slash (path_expanduser raw))
      (base, PatternRule.mk ("Additional " ++ cp.1.value ++ " path")
        base cp.1 .both false)
  let ruleset := compile_ruleset config.patterns additional_paths
  let st0 : InsightState := ⟨fun _ => [], fun _ => [], fun _ => {}⟩
  match insight_loop ruleset config.max_insights_per_category
      [(root, false)] st0 with
  | .error e => .error e
  | .ok st =>
    let all_insights := categoriesList.flatMap fun cat =>
      dedupByPath (sortEntriesDesc (st.heaps cat)) []
    .ok ⟨sortInsightsDesc all_insights, st.by_category⟩

/-- C1, decided against the code: `generate_insights` never returns an
`InsightBundle` — for every scan tree (including a bare root with no
matching rules) and every `AppConfig` it raises `TypeError` at the very
first node of the traversal, because src/dux/services/insights.py line 124
calls `match_all(ruleset, lpath, lbase, is_dir)` with four arguments while
`match_all` (src/dux/services/patterns.py line 280) requires the fifth
positional parameter `raw_path`.  The stack is seeded with
`(root, in_temp_or_cache=false)`, so the first iteration always reaches
the call. -/
theorem C1_generate_insights_code_bug (root : ScanNode) (config : AppConfig) :
    generate_insights root config = .error PyError.typeError := rfl

end Dux
